import Mathlib

/-!
# Position hub and kinematic simulator of `cmd/server/main.go`

A shallow embedding of the simulation / broadcast core of the server:

* `PositionManager` (latest-state table and subscriber registry) with
  `AddClient`, `RemoveClient`, `BroadcastPosition`, `UpdatePosition`,
  `GetPosition`, `GetAllPositions`;
* `PositionSimulator` with `NewPositionSimulator` and `Update`;
* `SimulationEngine` with `NewSimulationEngine` and the body of the ticker
  loop of `Start`.

Conventions of the embedding.

* `float64` arithmetic is read over an exact ordered field `K` (the
  statements hold for the reals; the rationals make every definition
  executable).  `math.Sqrt` and `math.Atan2` are passed in as functions.
* Every value obtained from `math/rand` and from `timestamppb.Now()` during
  one call is an explicit argument (`Draws`, `InitDraws`).  `rand.Intn(30)`,
  `rand.Int31n(20)` and `rand.Int63n(5)` are `Fin 30`, `Fin 20`, `Fin 5`.
* Go maps are association lists that are searched from the front; a write to
  an existing key replaces in place, a write to a new key appends.
* Channels live in a heap `Nat → Chan`; a channel is a bounded FIFO buffer
  with a `closed` flag.  Go run-time panics (`close` of a closed channel,
  send on a closed channel) are the `panic` constructor of `Result`, which
  carries the state reached when the panic is raised.
-/

namespace Server

/-! ## Constants -/

/-- The constant `mapWidth` (meters). -/
def mapWidth {K : Type} [LinearOrderedField K] : K := 100

/-- The constant `mapHeight` (meters). -/
def mapHeight {K : Type} [LinearOrderedField K] : K := 100

/-- The constant `numObjects`. -/
def numObjects : Nat := 250

/-- The constant `math.Pi` of the Go library, an exact decimal constant. -/
def Pi {K : Type} [LinearOrderedField K] : K :=
  314159265358979323846264338327950288419716939937510582097494459 / 10 ^ 62

/-! ## Records and channels -/

/-- The fields of `positionv1.Position` that `Update` fills in.  `Battery` is
the `Percentage` of the embedded battery record, `BatteryLastUpdate` its
`PercentageLastUpdate`. -/
structure Position (K : Type) where
  ObjectId : Int
  TagId : String
  Timestamp : Nat
  IsValid : Bool
  SourceId : Int
  X : K
  Y : K
  Z : K
  A : K
  B : K
  C : K
  Latitude : K
  Longitude : K
  Altitude : K
  Flags : List Int
  TenantId : Int
  Battery : Int
  BatteryLastUpdate : Nat

/-- Outcome of an operation that may raise a Go run-time panic.  Both
constructors carry the state: a panic does not undo earlier writes. -/
inductive Result (σ : Type) where
  | ok (s : σ) : Result σ
  | panic (msg : String) (s : σ) : Result σ

/-- The state carried by a result. -/
def Result.state {σ : Type} : Result σ → σ
  | .ok s => s
  | .panic _ s => s

/-- Whether the operation returned normally. -/
def Result.isOk {σ : Type} : Result σ → Bool
  | .ok _ => true
  | .panic _ _ => false

/-- A buffered channel `chan *positionv1.Position`: capacity, queued
records (oldest first) and the closed flag. -/
structure Chan (K : Type) where
  cap : Nat
  buf : List (Position K)
  closed : Bool

/-- The channels that exist, by identity. -/
abbrev Heap (K : Type) := Nat → Chan K

/-- The struct `PositionManager`: `positions` is the map from object id to
record, `clients` the key set of the map `clients` (every stored value is
`true`). -/
structure PositionManager (K : Type) where
  positions : List (Int × Position K)
  clients : List Nat

/-- The hub together with the channels it refers to. -/
structure World (K : Type) where
  pm : PositionManager K
  chans : Heap K

/-- `NewPositionManager`: both maps empty. -/
def NewPositionManager {K : Type} : PositionManager K :=
  { positions := [], clients := [] }

/-! ## Map primitives -/

/-- Map write `m[k] = v`. -/
def mapSet {V : Type} (m : List (Int × V)) (k : Int) (v : V) : List (Int × V) :=
  match m with
  | [] => [(k, v)]
  | (k0, v0) :: rest => if k0 = k then (k, v) :: rest else (k0, v0) :: mapSet rest k v

/-- Map read `m[k]`, `none` for the zero value `nil` of an absent key. -/
def mapGet {V : Type} (m : List (Int × V)) (k : Int) : Option V :=
  match m with
  | [] => none
  | (k0, v0) :: rest => if k0 = k then some v0 else mapGet rest k

/-! ## Subscriber registry -/

/-- `AddClient`: `pm.clients[client] = true`. -/
def AddClient {K : Type} (pm : PositionManager K) (client : Nat) : PositionManager K :=
  { pm with clients := if client ∈ pm.clients then pm.clients else pm.clients ++ [client] }

/-- The builtin `close(ch)`: panics on a channel that is already closed. -/
def closeChan {K : Type} (h : Heap K) (ch : Nat) : Result (Heap K) :=
  if (h ch).closed then .panic "close of closed channel" h
  else .ok (Function.update h ch { h ch with closed := true })

/-- `RemoveClient`: `delete(pm.clients, client)` followed by `close(client)`. -/
def RemoveClient {K : Type} (w : World K) (client : Nat) : Result (World K) :=
  let pm1 : PositionManager K := { w.pm with clients := w.pm.clients.filter (fun c => c ≠ client) }
  match closeChan w.chans client with
  | .ok h => .ok { pm := pm1, chans := h }
  | .panic msg h => .panic msg { pm := pm1, chans := h }

/-! ## Broadcast and table write -/

/-- The statement `select { case client <- pos: default: }` on one channel:
the record is queued when there is room, dropped when the buffer is full; a
send on a closed channel panics. -/
def trySend {K : Type} (c : Chan K) (pos : Position K) : Result (Chan K) :=
  if c.closed then .panic "send on closed channel" c
  else if c.buf.length < c.cap then .ok { c with buf := c.buf ++ [pos] }
  else .ok c

/-- The loop `for client := range pm.clients` of `BroadcastPosition`. -/
def broadcastLoop {K : Type} (clients : List Nat) (h : Heap K) (pos : Position K) :
    Result (Heap K) :=
  match clients with
  | [] => .ok h
  | c :: cs =>
    match trySend (h c) pos with
    | .ok ch => broadcastLoop cs (Function.update h c ch) pos
    | .panic msg _ => .panic msg h

/-- `BroadcastPosition`. -/
def BroadcastPosition {K : Type} (w : World K) (pos : Position K) : Result (World K) :=
  match broadcastLoop w.pm.clients w.chans pos with
  | .ok h => .ok { w with chans := h }
  | .panic msg h => .panic msg { w with chans := h }

/-- `UpdatePosition`: table write, then broadcast. -/
def UpdatePosition {K : Type} (w : World K) (pos : Position K) : Result (World K) :=
  let w1 : World K :=
    { w with pm := { w.pm with positions := mapSet w.pm.positions pos.ObjectId pos } }
  BroadcastPosition w1 pos

/-- `GetPosition`. -/
def GetPosition {K : Type} (pm : PositionManager K) (objectID : Int) : Option (Position K) :=
  mapGet pm.positions objectID

/-- `GetAllPositions`: the stored records (Go leaves the order unspecified). -/
def GetAllPositions {K : Type} (pm : PositionManager K) : List (Position K) :=
  pm.positions.map Prod.snd

/-! ## Kinematic model -/

/-- The struct `PositionSimulator`. -/
structure PositionSimulator (K : Type) where
  positionID : Int
  objectID : Int
  tagID : String
  x : K
  y : K
  vx : K
  vy : K
  angle : K
  speed : K
  targetX : K
  targetY : K
  battery : Int
  sourceID : Int
  isValid : Bool
  invalidCounter : Int

/-- The random values `NewPositionSimulator` consumes, in source order:
four `rand.Float64()`, `rand.Int31n(20)`, `rand.Int63n(5)`. -/
structure InitDraws (K : Type) where
  x : K
  y : K
  angle : K
  speed : K
  battery : Fin 20
  source : Fin 5

/-- The values one call of `Update` may consume: `rand.Intn(30)` of the
invalid branch, the `rand.Float64()` results of the valid branch in source
order, and the two readings of `timestamppb.Now()`. -/
structure Draws (K : Type) where
  intn30 : Fin 30
  pickTarget : K
  newTargetX : K
  newTargetY : K
  noiseX : K
  noiseY : K
  drain : K
  invalidate : K
  now : Nat
  nowBattery : Nat

/-- The library functions `math.Sqrt` and `math.Atan2`. -/
structure MathFns (K : Type) where
  sqrt : K → K
  atan2 : K → K → K

/-- Two's-complement wrap of the 64-bit Go `int`. -/
def wrapInt (n : Int) : Int := (n + 2 ^ 63) % 2 ^ 64 - 2 ^ 63

section Kinematics

variable {K : Type} [LinearOrderedField K] [FloorRing K]

/-- `NewPositionSimulator`; the fields the literal leaves out are zero. -/
def NewPositionSimulator (positionID objectID : Int) (tagID : String) (r : InitDraws K) :
    PositionSimulator K :=
  { positionID := positionID
    objectID := objectID
    tagID := tagID
    x := r.x * mapWidth
    y := r.y * mapHeight
    vx := 0
    vy := 0
    angle := r.angle * 2 * Pi
    speed := 1 / 2 + r.speed * 2
    targetX := 0
    targetY := 0
    battery := 80 + (r.battery : Nat)
    sourceID := 1 + (r.source : Nat)
    isValid := true
    invalidCounter := 0 }

/-- The `positionv1.Position` literal both branches of `Update` return, with
the given `IsValid`. -/
def mkPosition (s : PositionSimulator K) (isValid : Bool) (d : Draws K) : Position K :=
  { ObjectId := s.objectID
    TagId := s.tagID
    Timestamp := d.now
    IsValid := isValid
    SourceId := s.sourceID
    X := s.x
    Y := s.y
    Z := 0
    A := s.angle
    B := 0
    C := 0
    Latitude := 481351 / 10000 + s.y / 111000
    Longitude := 115820 / 10000 + s.x / 111000
    Altitude := 520
    Flags := []
    TenantId := 1
    Battery := s.battery
    BatteryLastUpdate := d.nowBattery }

/-- Invalid branch of `Update`, the state part: count, and become valid
again once the counter exceeds `20 + rand.Intn(30)`. -/
def invalidStep (s : PositionSimulator K) (d : Draws K) : PositionSimulator K :=
  let s1 := { s with invalidCounter := wrapInt (s.invalidCounter + 1) }
  if s1.invalidCounter > 20 + ((d.intn30 : Nat) : Int) then
    { s1 with isValid := true, invalidCounter := 0 }
  else s1

/-- Pick a new target with 1% chance. -/
def pickTarget (s : PositionSimulator K) (d : Draws K) : PositionSimulator K :=
  if d.pickTarget < 1 / 100 then
    { s with targetX := d.newTargetX * mapWidth, targetY := d.newTargetY * mapHeight }
  else s

/-- The loop `for angleDiff > math.Pi { angleDiff -= 2 * math.Pi }`, at most
`fuel` iterations. -/
def angleDown (fuel : Nat) (a : K) : K :=
  match fuel with
  | 0 => a
  | n + 1 => if a > Pi then angleDown n (a - 2 * Pi) else a

/-- The loop `for angleDiff < -math.Pi { angleDiff += 2 * math.Pi }`, at most
`fuel` iterations. -/
def angleUp (fuel : Nat) (a : K) : K :=
  match fuel with
  | 0 => a
  | n + 1 => if a < -Pi then angleUp n (a + 2 * Pi) else a

/-- Both normalisation loops, each with the number of iterations it needs
(see `angleDown_le` and `le_angleUp`). -/
def normalizeAngle (a : K) : K :=
  let a1 := angleDown (Int.toNat ⌈(a - Pi) / (2 * Pi)⌉) a
  angleUp (Int.toNat ⌈(-Pi - a1) / (2 * Pi)⌉) a1

/-- Move towards the target: the block guarded by
`s.targetX != 0 || s.targetY != 0`. -/
def steer (fn : MathFns K) (s : PositionSimulator K) : PositionSimulator K :=
  if s.targetX ≠ 0 ∨ s.targetY ≠ 0 then
    let dx := s.targetX - s.x
    let dy := s.targetY - s.y
    let dist := fn.sqrt (dx * dx + dy * dy)
    if dist > 1 / 2 then
      let desiredVx := (dx / dist) * s.speed
      let desiredVy := (dy / dist) * s.speed
      let acceleration : K := 1 / 10
      let targetAngle := fn.atan2 dy dx
      let angleDiff := normalizeAngle (targetAngle - s.angle)
      { s with
        vx := s.vx + (desiredVx - s.vx) * acceleration
        vy := s.vy + (desiredVy - s.vy) * acceleration
        angle := s.angle + angleDiff * (1 / 10) }
    else
      { s with vx := s.vx * (9 / 10), vy := s.vy * (9 / 10) }
  else s

/-- Noise, then damping. -/
def perturb (s : PositionSimulator K) (d : Draws K) : PositionSimulator K :=
  { s with
    vx := (s.vx + (d.noiseX - 1 / 2) * (5 / 100)) * (98 / 100)
    vy := (s.vy + (d.noiseY - 1 / 2) * (5 / 100)) * (98 / 100) }

/-- Position update `s.x += s.vx * dt; s.y += s.vy * dt`. -/
def integrate (s : PositionSimulator K) (dt : K) : PositionSimulator K :=
  { s with x := s.x + s.vx * dt, y := s.y + s.vy * dt }

/-- The four `if` statements under `// Bounce off walls`, in source order. -/
def bounce (s : PositionSimulator K) : PositionSimulator K :=
  let s1 := if s.x < 0 then { s with x := 0, vx := -s.vx, targetX := mapWidth / 2 } else s
  let s2 := if s1.x > mapWidth then
    { s1 with x := mapWidth, vx := -s1.vx, targetX := mapWidth / 2 } else s1
  let s3 := if s2.y < 0 then { s2 with y := 0, vy := -s2.vy, targetY := mapHeight / 2 } else s2
  if s3.y > mapHeight then
    { s3 with y := mapHeight, vy := -s3.vy, targetY := mapHeight / 2 } else s3

/-- Battery drain: `if rand.Float64() < 0.001 && s.battery > 0 { s.battery-- }`. -/
def drainBattery (s : PositionSimulator K) (d : Draws K) : PositionSimulator K :=
  if d.drain < 1 / 1000 ∧ s.battery > 0 then { s with battery := s.battery - 1 } else s

/-- Occasional invalidation: `if rand.Float64() < 0.0005 { ... }`. -/
def maybeInvalidate (s : PositionSimulator K) (d : Draws K) : PositionSimulator K :=
  if d.invalidate < 5 / 10000 then { s with isValid := false, invalidCounter := 0 } else s

/-- State of a valid simulator right after the position update, before the
bounce: the integrated position and the velocity that produced it. -/
def integrated (fn : MathFns K) (s : PositionSimulator K) (dt : K) (d : Draws K) :
    PositionSimulator K :=
  integrate (perturb (steer fn (pickTarget s d)) d) dt

/-- State part of the valid branch of `Update`. -/
def validStep (fn : MathFns K) (s : PositionSimulator K) (dt : K) (d : Draws K) :
    PositionSimulator K :=
  maybeInvalidate (drainBattery (bounce (integrated fn s dt d)) d) d

/-- `Update`: the new simulator state and the record returned. -/
def Update (fn : MathFns K) (s : PositionSimulator K) (dt : K) (d : Draws K) :
    PositionSimulator K × Position K :=
  if s.isValid = false then
    let s1 := invalidStep s d
    (s1, mkPosition s1 false d)
  else
    let s1 := validStep fn s dt d
    (s1, mkPosition s1 s1.isValid d)

/-- State after `n` successive calls of `Update`, call `i` consuming `ds i`. -/
def updates (fn : MathFns K) (dt : K) (ds : Nat → Draws K) (s : PositionSimulator K) :
    Nat → PositionSimulator K
  | 0 => s
  | n + 1 => (Update fn (updates fn dt ds s n) dt (ds n)).1

/-- Record returned by call number `n` (counted from zero) of a run. -/
def emitted (fn : MathFns K) (dt : K) (ds : Nat → Draws K) (s : PositionSimulator K)
    (n : Nat) : Position K :=
  (Update fn (updates fn dt ds s n) dt (ds n)).2

end Kinematics

/-! ## Simulation engine -/

/-- The field of `objectv1.Object` the engine reads. -/
structure Object where
  Id : Int
  Name : String

/-- The struct `SimulationEngine` (ticker and `done` channel left out). -/
structure SimulationEngine (K : Type) where
  simulators : List (PositionSimulator K)

section Engine

variable {K : Type} [LinearOrderedField K] [FloorRing K]

/-- `updateInterval.Seconds()`, 100 ms. -/
def tickSeconds : K := 1 / 10

/-- `NewSimulationEngine` for a population of `n` objects (`numObjects` in the
source); `om` is the object table read through `GetObject`, `r i` the draws
of simulator `i`. -/
def NewSimulationEngine (n : Nat) (om : List (Int × Object)) (r : Nat → InitDraws K) :
    SimulationEngine K :=
  { simulators := (List.range n).map fun (i : Nat) =>
      let objectID : Int := (i : Int) + 1
      let tagID := match mapGet om objectID with
        | some obj => obj.Name
        | none => "UNKNOWN"
      NewPositionSimulator objectID objectID tagID (r i) }

/-- The loop `for _, sim := range se.simulators` run on one tick: `ds i` are
the draws of the simulator at position `i` of the list. -/
def tickLoop (fn : MathFns K) (sims : List (PositionSimulator K)) (ds : Nat → Draws K)
    (w : World K) : Result (List (PositionSimulator K) × World K) :=
  match sims with
  | [] => .ok ([], w)
  | s :: rest =>
    let r := Update fn s tickSeconds (ds 0)
    match UpdatePosition w r.2 with
    | .ok w1 =>
      match tickLoop fn rest (fun i => ds (i + 1)) w1 with
      | .ok st => .ok (r.1 :: st.1, st.2)
      | .panic msg st => .panic msg (r.1 :: st.1, st.2)
    | .panic msg w1 => .panic msg (r.1 :: rest, w1)

/-- One tick of the engine. -/
def tick (fn : MathFns K) (ds : Nat → Draws K) (st : SimulationEngine K × World K) :
    Result (SimulationEngine K × World K) :=
  match tickLoop fn st.1.simulators ds st.2 with
  | .ok r => .ok ({ simulators := r.1 }, r.2)
  | .panic msg r => .panic msg ({ simulators := r.1 }, r.2)

/-- The first `n` ticks; tick `t` consumes `ds t`.  A panic ends the run. -/
def runTicks (fn : MathFns K) (ds : Nat → Nat → Draws K) (st : SimulationEngine K × World K) :
    Nat → Result (SimulationEngine K × World K)
  | 0 => .ok st
  | n + 1 =>
    match runTicks fn ds st n with
    | .ok st1 => tick fn (ds n) st1
    | .panic msg st1 => .panic msg st1

end Engine

/-! ## Subscriber traces -/

/-- What happens to one subscriber channel: the clock submits a record, or
the handler of the channel takes the next record out. -/
inductive Event (K : Type) where
  | update (pos : Position K) : Event K
  | receive : Event K

/-- The receive `pos := <-client` of `handleSSE` on channel `c`: the oldest
queued record leaves the buffer and joins the received sequence; with an
empty buffer the handler keeps waiting. -/
def receive {K : Type} (w : World K) (c : Nat) (got : List (Position K)) :
    World K × List (Position K) :=
  match (w.chans c).buf with
  | [] => (w, got)
  | p :: rest => ({ w with chans := Function.update w.chans c { w.chans c with buf := rest } },
      got ++ [p])

/-- Run a trace of events for the subscriber on channel `c`, collecting what
it receives. -/
def runEvents {K : Type} (c : Nat) (evs : List (Event K)) (w : World K)
    (got : List (Position K)) : Result (World K × List (Position K)) :=
  match evs with
  | [] => .ok (w, got)
  | .update pos :: rest =>
    match UpdatePosition w pos with
    | .ok w1 => runEvents c rest w1 got
    | .panic msg w1 => .panic msg (w1, got)
  | .receive :: rest =>
    let r := receive w c got
    runEvents c rest r.1 r.2

/-- The records a trace submits to `UpdatePosition`, in order. -/
def submitted {K : Type} (evs : List (Event K)) : List (Position K) :=
  evs.filterMap fun e => match e with
    | .update pos => some pos
    | .receive => none

/-! ## Key sets -/

/-- Key set of a map after a write to key `k`. -/
def addKey (ks : List Int) (k : Int) : List Int :=
  if k ∈ ks then ks else ks ++ [k]

/-- The object ids `NewSimulationEngine` hands out: `int64(i + 1)` for
`i = 0 .. n - 1`. -/
def engineIds (n : Nat) : List Int :=
  (List.range n).map fun (i : Nat) => (i : Int) + 1

/-! ## Sample data -/

section Samples

/-- A record of object 7 over the rationals. -/
def samplePos : Position ℚ :=
  { ObjectId := 7, TagId := "tag-7", Timestamp := 0, IsValid := true, SourceId := 1,
    X := 1, Y := 2, Z := 0, A := 0, B := 0, C := 0, Latitude := 0, Longitude := 0,
    Altitude := 520, Flags := [], TenantId := 1, Battery := 90, BatteryLastUpdate := 0 }

/-- Channel 0 is empty with room for one record, channel 1 has capacity 1
and is full; every other channel is empty with capacity 0. -/
def sampleHeap : Heap ℚ := fun c =>
  if c = 0 then { cap := 1, buf := [], closed := false }
  else if c = 1 then { cap := 1, buf := [samplePos], closed := false }
  else { cap := 0, buf := [], closed := false }

/-- A hub with the two subscribers 1 and 0 (in this iteration order) and an
empty table. -/
def sampleWorld : World ℚ :=
  { pm := AddClient (AddClient NewPositionManager 1) 0, chans := sampleHeap }

/-- A simulator of object 3 that has just become invalid, at rest in the
middle of the area. -/
def sampleInvalidSim : PositionSimulator ℚ :=
  { positionID := 3, objectID := 3, tagID := "tag-3", x := 50, y := 50, vx := 1, vy := 0,
    angle := 0, speed := 1, targetX := 10, targetY := 20, battery := 90, sourceID := 2,
    isValid := false, invalidCounter := 0 }

/-- A valid simulator of object 3 on the left wall, moving outwards, with no
target set. -/
def sampleValidSim : PositionSimulator ℚ :=
  { positionID := 3, objectID := 3, tagID := "tag-3", x := 0, y := 50, vx := -1, vy := 0,
    angle := 0, speed := 1, targetX := 0, targetY := 0, battery := 90, sourceID := 2,
    isValid := true, invalidCounter := 0 }

/-- Draws under which nothing random happens: no new target, zero noise, no
drain, no invalidation; `rand.Intn(30)` gives 0. -/
def sampleDraws : Draws ℚ :=
  { intn30 := 0, pickTarget := 1 / 2, newTargetX := 0, newTargetY := 0, noiseX := 1 / 2,
    noiseY := 1 / 2, drain := 1 / 2, invalidate := 1 / 2, now := 0, nowBattery := 0 }

/-- Stand-ins for `math.Sqrt` and `math.Atan2` over the rationals. -/
def sampleFns : MathFns ℚ := { sqrt := fun x => x, atan2 := fun y _ => y }

end Samples

/-! ## Hub invariant -/

/-- What the registry guarantees between calls: the key set has no
repetition (it is a map) and every registered channel is open
(`RemoveClient` unregisters before it closes). -/
def WellFormed {K : Type} (w : World K) : Prop :=
  w.pm.clients.Nodup ∧ ∀ c ∈ w.pm.clients, (w.chans c).closed = false

/-- Every record of the table is stored under its own object id. -/
def TableOk {K : Type} (m : List (Int × Position K)) : Prop :=
  ∀ e ∈ m, e.2.ObjectId = e.1

/-- A channel after a non-blocking send that found it open. -/
def afterSend {K : Type} (c : Chan K) (pos : Position K) : Chan K :=
  if c.buf.length < c.cap then { c with buf := c.buf ++ [pos] } else c

section HubLemmas

variable {K : Type}

theorem trySend_of_open (c : Chan K) (pos : Position K) (h : c.closed = false) :
    trySend c pos = .ok (afterSend c pos) := by
  unfold trySend afterSend
  simp only [h, Bool.false_eq_true, if_false]
  split <;> rfl

theorem afterSend_closed (c : Chan K) (pos : Position K) :
    (afterSend c pos).closed = c.closed := by
  unfold afterSend
  split <;> rfl

theorem broadcastLoop_ok (pos : Position K) :
    ∀ (clients : List Nat) (h : Heap K), clients.Nodup →
      (∀ c ∈ clients, (h c).closed = false) →
      ∃ h1, broadcastLoop clients h pos = .ok h1 ∧
        ∀ c, h1 c = if c ∈ clients then afterSend (h c) pos else h c := by
  intro clients
  induction clients with
  | nil =>
    intro h _ _
    exact ⟨h, rfl, fun c => by simp⟩
  | cons c cs ih =>
    intro h hnd hopen
    have hc : c ∉ cs := (List.nodup_cons.mp hnd).1
    have hcs : cs.Nodup := (List.nodup_cons.mp hnd).2
    have hsend := trySend_of_open (h c) pos (hopen c (List.mem_cons_self c cs))
    have hopen1 : ∀ x ∈ cs, (Function.update h c (afterSend (h c) pos) x).closed = false := by
      intro x hx
      have hxc : x ≠ c := fun e => hc (e ▸ hx)
      rw [Function.update_noteq hxc]
      exact hopen x (List.mem_cons_of_mem c hx)
    obtain ⟨h1, hrun, hpt⟩ := ih (Function.update h c (afterSend (h c) pos)) hcs hopen1
    refine ⟨h1, ?_, ?_⟩
    · simp only [broadcastLoop, hsend]
      exact hrun
    · intro x
      rw [hpt x]
      by_cases hxc : x = c
      · subst hxc
        simp [hc]
      · simp [hxc, Function.update_noteq hxc]

theorem BroadcastPosition_ok (w : World K) (pos : Position K) (hw : WellFormed w) :
    ∃ h1, BroadcastPosition w pos = .ok { w with chans := h1 } ∧
      ∀ c, h1 c = if c ∈ w.pm.clients then afterSend (w.chans c) pos else w.chans c := by
  obtain ⟨h1, hrun, hpt⟩ := broadcastLoop_ok pos w.pm.clients w.chans hw.1 hw.2
  refine ⟨h1, ?_, hpt⟩
  simp only [BroadcastPosition, hrun]

theorem UpdatePosition_ok (w : World K) (pos : Position K) (hw : WellFormed w) :
    ∃ h1, UpdatePosition w pos =
        .ok { pm := { w.pm with positions := mapSet w.pm.positions pos.ObjectId pos },
              chans := h1 } ∧
      ∀ c, h1 c = if c ∈ w.pm.clients then afterSend (w.chans c) pos else w.chans c := by
  have hw1 : WellFormed ({ w with pm := { w.pm with
      positions := mapSet w.pm.positions pos.ObjectId pos } } : World K) := hw
  obtain ⟨h1, hrun, hpt⟩ := BroadcastPosition_ok _ pos hw1
  exact ⟨h1, hrun, hpt⟩

theorem wellFormed_of_heap (w : World K) (h1 : Heap K) (pm1 : PositionManager K)
    (hw : WellFormed w) (hcl : pm1.clients = w.pm.clients)
    (hpt : ∀ c ∈ w.pm.clients, (h1 c).closed = (w.chans c).closed) :
    WellFormed ({ pm := pm1, chans := h1 } : World K) := by
  refine ⟨?_, ?_⟩
  · show pm1.clients.Nodup
    rw [hcl]; exact hw.1
  · intro c hc
    have hc1 : c ∈ w.pm.clients := hcl ▸ hc
    show (h1 c).closed = false
    rw [hpt c hc1]; exact hw.2 c hc1

theorem wellFormed_new (heap : Heap K) :
    WellFormed ({ pm := NewPositionManager, chans := heap } : World K) :=
  ⟨List.nodup_nil, fun c hc => absurd hc (List.not_mem_nil c)⟩

theorem AddClient_wellFormed (w : World K) (c : Nat) (hw : WellFormed w)
    (hopen : (w.chans c).closed = false) :
    WellFormed ({ pm := AddClient w.pm c, chans := w.chans } : World K) := by
  by_cases hc : c ∈ w.pm.clients
  · refine ⟨?_, ?_⟩
    · show (if c ∈ w.pm.clients then w.pm.clients else w.pm.clients ++ [c]).Nodup
      rw [if_pos hc]; exact hw.1
    · intro x hx
      have hx1 : x ∈ (if c ∈ w.pm.clients then w.pm.clients else w.pm.clients ++ [c]) := hx
      rw [if_pos hc] at hx1
      exact hw.2 x hx1
  · refine ⟨?_, ?_⟩
    · show (if c ∈ w.pm.clients then w.pm.clients else w.pm.clients ++ [c]).Nodup
      rw [if_neg hc]
      refine List.Nodup.append hw.1 (List.nodup_singleton c) ?_
      intro x hx1 hx2
      rw [List.mem_singleton] at hx2
      exact hc (hx2 ▸ hx1)
    · intro x hx
      have hx1 : x ∈ (if c ∈ w.pm.clients then w.pm.clients else w.pm.clients ++ [c]) := hx
      rw [if_neg hc, List.mem_append, List.mem_singleton] at hx1
      rcases hx1 with hx1 | hx1
      · exact hw.2 x hx1
      · rw [hx1]; exact hopen

theorem RemoveClient_wellFormed (w : World K) (c : Nat) (hw : WellFormed w) :
    WellFormed (RemoveClient w c).state := by
  have hnd : (w.pm.clients.filter fun x => decide (x ≠ c)).Nodup := hw.1.filter _
  have hmem : ∀ x, x ∈ (w.pm.clients.filter fun x => decide (x ≠ c)) →
      x ∈ w.pm.clients ∧ x ≠ c := by
    intro x hx
    have := List.mem_filter.mp hx
    exact ⟨this.1, by simpa using this.2⟩
  unfold RemoveClient closeChan
  by_cases hcl : (w.chans c).closed = true
  · simp only [hcl, if_true, Result.state]
    exact ⟨hnd, fun x hx => hw.2 x (hmem x hx).1⟩
  · simp only [hcl, Bool.false_eq_true, if_false, Result.state]
    refine ⟨hnd, ?_⟩
    intro x hx
    obtain ⟨hx1, hx2⟩ := hmem x hx
    show (Function.update w.chans c _ x).closed = false
    rw [Function.update_noteq hx2]
    exact hw.2 x hx1

theorem UpdatePosition_state_positions (w : World K) (pos : Position K) :
    (UpdatePosition w pos).state.pm.positions = mapSet w.pm.positions pos.ObjectId pos := by
  simp only [UpdatePosition, BroadcastPosition]
  cases broadcastLoop w.pm.clients w.chans pos <;> rfl

theorem UpdatePosition_state_clients (w : World K) (pos : Position K) :
    (UpdatePosition w pos).state.pm.clients = w.pm.clients := by
  simp only [UpdatePosition, BroadcastPosition]
  cases broadcastLoop w.pm.clients w.chans pos <;> rfl

theorem mapGet_mapSet_self {V : Type} (m : List (Int × V)) (k : Int) (v : V) :
    mapGet (mapSet m k v) k = some v := by
  induction m with
  | nil => simp [mapSet, mapGet]
  | cons e rest ih =>
    obtain ⟨k0, v0⟩ := e
    by_cases hk : k0 = k
    · simp [mapSet, mapGet, hk]
    · simp [mapSet, mapGet, hk, ih]

theorem mapGet_mapSet_other {V : Type} (m : List (Int × V)) (k j : Int) (v : V) (hj : j ≠ k) :
    mapGet (mapSet m k v) j = mapGet m j := by
  induction m with
  | nil =>
    have : ¬ k = j := fun e => hj e.symm
    simp [mapSet, mapGet, this]
  | cons e rest ih =>
    obtain ⟨k0, v0⟩ := e
    by_cases hk : k0 = k
    · have h1 : ¬ k = j := fun e => hj e.symm
      have h2 : ¬ k0 = j := fun e => hj (e ▸ hk)
      simp [mapSet, mapGet, hk, h1]
    · by_cases hk0 : k0 = j
      · subst hk0
        simp [mapSet, mapGet, hj]
      · simp [mapSet, mapGet, hk, hk0, ih]

theorem length_mapSet {V : Type} (m : List (Int × V)) (k : Int) (v : V) :
    (mapSet m k v).length = if (mapGet m k).isSome then m.length else m.length + 1 := by
  induction m with
  | nil => simp [mapSet, mapGet]
  | cons e rest ih =>
    obtain ⟨k0, v0⟩ := e
    by_cases hk : k0 = k
    · simp [mapSet, mapGet, hk]
    · simp only [mapSet, mapGet, hk, if_false, List.length_cons, ih]
      split <;> rfl

end HubLemmas

/-! ## Claims on the hub -/

section HubClaims

variable {K : Type}

theorem sampleWorld_wellFormed : WellFormed sampleWorld := by
  refine ⟨by decide, ?_⟩
  intro c _
  simp only [sampleWorld, sampleHeap]
  split
  · rfl
  · split <;> rfl

/-- C1: drop instead of block. From a well-formed hub `BroadcastPosition`
returns normally; every registered channel with room holds its previous
contents followed by the record, every registered channel that was full is
unchanged, channels that are not registered are unchanged, and the client
set and the table are unchanged. -/
theorem broadcast_drops_per_subscriber (w : World K) (pos : Position K) (hw : WellFormed w) :
    ∃ w1, BroadcastPosition w pos = .ok w1 ∧ w1.pm = w.pm ∧
      (∀ c ∈ w.pm.clients, (w.chans c).buf.length < (w.chans c).cap →
        w1.chans c = { w.chans c with buf := (w.chans c).buf ++ [pos] }) ∧
      (∀ c ∈ w.pm.clients, ¬ (w.chans c).buf.length < (w.chans c).cap →
        w1.chans c = w.chans c) ∧
      (∀ c, c ∉ w.pm.clients → w1.chans c = w.chans c) := by
  obtain ⟨h1, hrun, hpt⟩ := BroadcastPosition_ok w pos hw
  refine ⟨_, hrun, rfl, ?_, ?_, ?_⟩
  · intro c hc hroom
    show h1 c = _
    rw [hpt c]
    simp [hc, afterSend, hroom]
  · intro c hc hfull
    show h1 c = _
    rw [hpt c]
    simp [hc, afterSend, hfull]
  · intro c hc
    show h1 c = _
    rw [hpt c]
    simp [hc]

/-- Instance of `broadcast_drops_per_subscriber` at `sampleWorld`, where
subscriber 1 is saturated and subscriber 0 is not. -/
theorem broadcast_drops_per_subscriber_witness :
    WellFormed sampleWorld ∧
    ∃ w1, BroadcastPosition sampleWorld samplePos = .ok w1 ∧ w1.pm = sampleWorld.pm ∧
      (∀ c ∈ sampleWorld.pm.clients,
        (sampleWorld.chans c).buf.length < (sampleWorld.chans c).cap →
        w1.chans c = { sampleWorld.chans c with
          buf := (sampleWorld.chans c).buf ++ [samplePos] }) ∧
      (∀ c ∈ sampleWorld.pm.clients,
        ¬ (sampleWorld.chans c).buf.length < (sampleWorld.chans c).cap →
        w1.chans c = sampleWorld.chans c) ∧
      (∀ c, c ∉ sampleWorld.pm.clients → w1.chans c = sampleWorld.chans c) :=
  ⟨sampleWorld_wellFormed,
    broadcast_drops_per_subscriber sampleWorld samplePos sampleWorld_wellFormed⟩

/-- C2: last write wins. After `UpdatePosition w pos` (whether or not the
broadcast that follows the table write returns normally) `GetPosition` of
the record's id returns the record, every other id reads as before, and the
number of stored records is unchanged when the id was present and one more
when it was absent. -/
theorem update_last_write_wins (w : World K) (pos : Position K) :
    GetPosition (UpdatePosition w pos).state.pm pos.ObjectId = some pos ∧
    (∀ j, j ≠ pos.ObjectId →
      GetPosition (UpdatePosition w pos).state.pm j = GetPosition w.pm j) ∧
    (GetAllPositions (UpdatePosition w pos).state.pm).length =
      if (GetPosition w.pm pos.ObjectId).isSome then (GetAllPositions w.pm).length
      else (GetAllPositions w.pm).length + 1 := by
  refine ⟨?_, ?_, ?_⟩
  · simp only [GetPosition, UpdatePosition_state_positions]
    exact mapGet_mapSet_self _ _ _
  · intro j hj
    simp only [GetPosition, UpdatePosition_state_positions]
    exact mapGet_mapSet_other _ _ _ _ hj
  · simp only [GetPosition, GetAllPositions, UpdatePosition_state_positions, List.length_map]
    exact length_mapSet _ _ _

end HubClaims

section TraceClaims

variable {K : Type}

theorem receive_wellFormed (w : World K) (c : Nat) (got : List (Position K))
    (hw : WellFormed w) : WellFormed (receive w c got).1 := by
  unfold receive
  split
  · exact hw
  · refine wellFormed_of_heap w _ _ hw rfl ?_
    intro x _
    by_cases hx : x = c
    · subst hx; simp
    · simp [Function.update_noteq hx]

theorem receive_log (w : World K) (c : Nat) (got : List (Position K)) :
    (receive w c got).2 ++ ((receive w c got).1.chans c).buf = got ++ (w.chans c).buf := by
  unfold receive
  split
  · next h => simp [h]
  · next p rest h => simp [h]

/-- Invariant of a trace: what has been received, followed by what is still
queued, is a subsequence of the same at the start followed by the records
submitted since. -/
theorem runEvents_sublist (c : Nat) :
    ∀ (evs : List (Event K)) (w : World K) (got : List (Position K)), WellFormed w →
      ∃ w1 got1, runEvents c evs w got = .ok (w1, got1) ∧
        (got1 ++ (w1.chans c).buf).Sublist ((got ++ (w.chans c).buf) ++ submitted evs) := by
  intro evs
  induction evs with
  | nil =>
    intro w got _
    exact ⟨w, got, rfl, by simp [submitted]⟩
  | cons e rest ih =>
    intro w got hw
    cases e with
    | update pos =>
      obtain ⟨h1, hrun, hpt⟩ := UpdatePosition_ok w pos hw
      have hw1 : WellFormed ({ pm := { w.pm with
          positions := mapSet w.pm.positions pos.ObjectId pos }, chans := h1 } : World K) := by
        refine wellFormed_of_heap w _ _ hw rfl ?_
        intro x hx
        rw [hpt x]
        simp [hx, afterSend_closed]
      obtain ⟨w2, got2, hrest, hsub⟩ := ih _ got hw1
      refine ⟨w2, got2, ?_, ?_⟩
      · simp only [runEvents, hrun]
        exact hrest
      · refine hsub.trans ?_
        have hsubm : submitted (Event.update pos :: rest) = pos :: submitted rest := by
          simp [submitted]
        rw [hsubm]
        show (got ++ (h1 c).buf ++ submitted rest).Sublist _
        rw [hpt c]
        by_cases hc : c ∈ w.pm.clients
        · simp only [hc, if_true, afterSend]
          split
          · simp
          · simp
        · simp [hc]
    | receive =>
      obtain ⟨w2, got2, hrest, hsub⟩ :=
        ih (receive w c got).1 (receive w c got).2 (receive_wellFormed w c got hw)
      refine ⟨w2, got2, ?_, ?_⟩
      · simp only [runEvents]
        exact hrest
      · have hsubm : submitted (Event.receive :: rest) = submitted rest := by
          simp [submitted]
        rw [hsubm, ← receive_log w c got]
        exact hsub

/-- C3: delivery keeps submission order. For a subscriber whose channel is
empty at registration, every interleaving of `UpdatePosition` calls with
receives on that channel runs to the end, and the sequence received is a
subsequence of the sequence submitted; the same holds for the records of any
single object id. -/
theorem delivery_is_subsequence (c : Nat) (evs : List (Event K)) (w : World K)
    (hw : WellFormed w) (hempty : (w.chans c).buf = []) :
    ∃ w1 got, runEvents c evs w [] = .ok (w1, got) ∧
      got.Sublist (submitted evs) ∧
      ∀ id : Int, (got.filter fun p => decide (p.ObjectId = id)).Sublist
        ((submitted evs).filter fun p => decide (p.ObjectId = id)) := by
  obtain ⟨w1, got, hrun, hsub⟩ := runEvents_sublist c evs w [] hw
  have hgot : got.Sublist (submitted evs) := by
    have h1 : got.Sublist (got ++ (w1.chans c).buf) := List.sublist_append_left _ _
    have h2 := h1.trans hsub
    simpa [hempty] using h2
  exact ⟨w1, got, hrun, hgot, fun id => hgot.filter _⟩

/-- Instance of `delivery_is_subsequence` for subscriber 0 of `sampleWorld`
(capacity 1): two submissions, then two receives, then a third submission. -/
theorem delivery_is_subsequence_witness :
    WellFormed sampleWorld ∧ (sampleWorld.chans 0).buf = [] ∧
    ∃ w1 got,
      runEvents 0 [Event.update samplePos, Event.update samplePos, Event.receive,
        Event.receive, Event.update samplePos] sampleWorld [] = .ok (w1, got) ∧
      got.Sublist (submitted [Event.update samplePos, Event.update samplePos, Event.receive,
        Event.receive, Event.update samplePos]) ∧
      ∀ id : Int, (got.filter fun p => decide (p.ObjectId = id)).Sublist
        ((submitted [Event.update samplePos, Event.update samplePos, Event.receive,
          Event.receive, Event.update samplePos]).filter fun p => decide (p.ObjectId = id)) :=
  ⟨sampleWorld_wellFormed, rfl,
    delivery_is_subsequence 0 _ sampleWorld sampleWorld_wellFormed rfl⟩

end TraceClaims

section RemoveClaims

variable {K : Type}

theorem filter_ne_idem (l : List Nat) (c : Nat) :
    (l.filter fun x => decide (x ≠ c)).filter (fun x => decide (x ≠ c)) =
      l.filter fun x => decide (x ≠ c) := by
  rw [List.filter_filter]
  simp

/-- C4 as stated fails: on the hub with the single subscriber 0 the first
`RemoveClient` returns normally and the second one panics. -/
theorem removeClient_twice_panics :
    ∃ w1 msg, RemoveClient ({ pm := AddClient NewPositionManager 0, chans := sampleHeap } :
        World ℚ) 0 = .ok w1 ∧ RemoveClient w1 0 = .panic msg w1 := by
  refine ⟨_, "close of closed channel", rfl, ?_⟩
  simp [RemoveClient, closeChan, AddClient, NewPositionManager]

/-- C4, amended: if the channel of a subscription is open, the first
`RemoveClient` returns normally, unregisters the channel and closes it; a
second call raises the panic of `close` on a closed channel and leaves the
client set, the table and every channel exactly as the first call left
them. -/
theorem removeClient_second_call (w : World K) (c : Nat) (hopen : (w.chans c).closed = false) :
    ∃ w1, RemoveClient w c = .ok w1 ∧ c ∉ w1.pm.clients ∧ (w1.chans c).closed = true ∧
      (∀ x, x ≠ c → w1.chans x = w.chans x) ∧
      RemoveClient w1 c = .panic "close of closed channel" w1 := by
  refine ⟨{ pm := { w.pm with clients := w.pm.clients.filter fun x => decide (x ≠ c) },
            chans := Function.update w.chans c { w.chans c with closed := true } },
    ?_, ?_, ?_, ?_, ?_⟩
  · simp [RemoveClient, closeChan, hopen]
  · simp
  · simp
  · intro x hx
    simp [Function.update_noteq hx]
  · simp only [RemoveClient, closeChan, Function.update_same, if_true, filter_ne_idem]

/-- Instance of `removeClient_second_call` for subscriber 0 of `sampleWorld`. -/
theorem removeClient_second_call_witness :
    (sampleWorld.chans 0).closed = false ∧
    ∃ w1, RemoveClient sampleWorld 0 = .ok w1 ∧ 0 ∉ w1.pm.clients ∧
      (w1.chans 0).closed = true ∧
      (∀ x, x ≠ 0 → w1.chans x = sampleWorld.chans x) ∧
      RemoveClient w1 0 = .panic "close of closed channel" w1 :=
  ⟨rfl, removeClient_second_call sampleWorld 0 rfl⟩

end RemoveClaims

/-! ## Lemmas on the simulator and the engine -/

section TableLemmas

variable {K : Type}

theorem tableOk_mapSet (m : List (Int × Position K)) (pos : Position K) (hm : TableOk m) :
    TableOk (mapSet m pos.ObjectId pos) := by
  induction m with
  | nil =>
    intro e he
    simp only [mapSet, List.mem_singleton] at he
    subst he; rfl
  | cons e0 rest ih =>
    obtain ⟨k0, v0⟩ := e0
    have hrest : TableOk rest := fun e he => hm e (List.mem_cons_of_mem _ he)
    intro e he
    by_cases hk : k0 = pos.ObjectId
    · simp only [mapSet, hk, if_true, List.mem_cons] at he
      rcases he with he | he
      · subst he; rfl
      · exact hrest e he
    · simp only [mapSet, hk, if_false, List.mem_cons] at he
      rcases he with he | he
      · subst he; exact hm _ (List.mem_cons_self _ _)
      · exact ih hrest e he

theorem UpdatePosition_no_clients (w : World K) (pos : Position K) (hcl : w.pm.clients = []) :
    UpdatePosition w pos =
      .ok { pm := { w.pm with positions := mapSet w.pm.positions pos.ObjectId pos },
            chans := w.chans } := by
  have hw : WellFormed w := by
    refine ⟨by rw [hcl]; exact List.nodup_nil, ?_⟩
    intro c hc
    rw [hcl] at hc
    exact absurd hc (List.not_mem_nil c)
  obtain ⟨h1, hrun, hpt⟩ := UpdatePosition_ok w pos hw
  have hh : h1 = w.chans := by
    funext c
    rw [hpt c]
    simp [hcl]
  rw [hrun, hh]

end TableLemmas

theorem invalidStep_objectID {K : Type} (s : PositionSimulator K) (d : Draws K) :
    (invalidStep s d).objectID = s.objectID := by
  unfold invalidStep
  simp only
  split <;> rfl

theorem bounce_objectID {K : Type} [LinearOrderedField K] (s : PositionSimulator K) : (bounce s).objectID = s.objectID := by
  simp only [bounce]
  split_ifs <;> rfl

theorem NewSimulationEngine_ids {K : Type} [LinearOrderedField K] (n : Nat) (om : List (Int × Object)) (r : Nat → InitDraws K) :
    (NewSimulationEngine n om r).simulators.map (fun s => s.objectID) = engineIds n := by
  simp only [NewSimulationEngine, engineIds, List.map_map]
  apply List.map_congr_left
  intro i _
  rfl

section EngineLemmas

variable {K : Type} [LinearOrderedField K] [FloorRing K]

theorem integrated_objectID (fn : MathFns K) (s : PositionSimulator K) (dt : K) (d : Draws K) :
    (integrated fn s dt d).objectID = s.objectID := by
  simp only [integrated, integrate, perturb, steer, pickTarget]
  split_ifs <;> rfl

theorem validStep_objectID (fn : MathFns K) (s : PositionSimulator K) (dt : K) (d : Draws K) :
    (validStep fn s dt d).objectID = s.objectID := by
  have h1 : (validStep fn s dt d).objectID = (bounce (integrated fn s dt d)).objectID := by
    simp only [validStep, maybeInvalidate, drainBattery]
    split_ifs <;> rfl
  rw [h1, bounce_objectID, integrated_objectID]

theorem Update_objectID (fn : MathFns K) (s : PositionSimulator K) (dt : K) (d : Draws K) :
    (Update fn s dt d).1.objectID = s.objectID ∧ (Update fn s dt d).2.ObjectId = s.objectID := by
  unfold Update
  split
  · exact ⟨invalidStep_objectID s d, invalidStep_objectID s d⟩
  · exact ⟨validStep_objectID fn s dt d, validStep_objectID fn s dt d⟩

theorem keys_mapSet {V : Type} (m : List (Int × V)) (k : Int) (v : V) :
    (mapSet m k v).map Prod.fst = addKey (m.map Prod.fst) k := by
  induction m with
  | nil => simp [mapSet, addKey]
  | cons e rest ih =>
    obtain ⟨k0, v0⟩ := e
    by_cases hk : k0 = k
    · subst hk
      simp [mapSet, addKey]
    · have hk1 : ¬ k = k0 := fun e => hk e.symm
      simp only [mapSet, hk, if_false, List.map_cons, ih, addKey, List.mem_cons, hk1, false_or]
      split <;> simp

theorem mapGet_of_mem_keys {V : Type} (m : List (Int × V)) (k : Int)
    (hk : k ∈ m.map Prod.fst) : ∃ v, mapGet m k = some v ∧ (k, v) ∈ m := by
  induction m with
  | nil => simp at hk
  | cons e rest ih =>
    obtain ⟨k0, v0⟩ := e
    by_cases h0 : k0 = k
    · subst h0
      exact ⟨v0, by simp [mapGet], List.mem_cons_self _ _⟩
    · have hk1 : k ∈ rest.map Prod.fst := by
        simp only [List.map_cons, List.mem_cons] at hk
        rcases hk with hk | hk
        · exact absurd hk.symm h0
        · exact hk
      obtain ⟨v, hv, hmem⟩ := ih hk1
      exact ⟨v, by simp [mapGet, h0, hv], List.mem_cons_of_mem _ hmem⟩

theorem mem_foldl_addKey (x : Int) :
    ∀ (ids ks : List Int), x ∈ ids.foldl addKey ks ↔ x ∈ ks ∨ x ∈ ids := by
  intro ids
  induction ids with
  | nil => intro ks; simp
  | cons i rest ih =>
    intro ks
    rw [List.foldl_cons, ih]
    unfold addKey
    split
    · next hi =>
      constructor
      · rintro (h | h)
        · exact Or.inl h
        · exact Or.inr (List.mem_cons_of_mem _ h)
      · rintro (h | h)
        · exact Or.inl h
        · rcases List.mem_cons.mp h with h | h
          · exact Or.inl (h ▸ hi)
          · exact Or.inr h
    · simp only [List.mem_append, List.mem_singleton, List.mem_cons]
      tauto

theorem foldl_addKey_of_nodup :
    ∀ (ids ks : List Int), (ks ++ ids).Nodup → ids.foldl addKey ks = ks ++ ids := by
  intro ids
  induction ids with
  | nil => intro ks _; simp
  | cons i rest ih =>
    intro ks hnd
    have hi : i ∉ ks := by
      intro hmem
      have := List.nodup_append.mp hnd
      exact this.2.2 hmem (List.mem_cons_self _ _)
    have hnd1 : ((ks ++ [i]) ++ rest).Nodup := by simpa using hnd
    rw [List.foldl_cons]
    simp only [addKey, hi, if_false]
    rw [ih _ hnd1]
    simp

theorem mem_engineIds (n : Nat) (id : Int) : id ∈ engineIds n ↔ 1 ≤ id ∧ id ≤ n := by
  simp only [engineIds, List.mem_map, List.mem_range]
  constructor
  · rintro ⟨i, hi, rfl⟩
    omega
  · rintro ⟨h1, h2⟩
    exact ⟨(id - 1).toNat, by omega, by omega⟩

theorem nodup_engineIds (n : Nat) : (engineIds n).Nodup := by
  unfold engineIds
  refine List.Nodup.map ?_ (List.nodup_range n)
  intro a b hab
  simp only at hab
  omega

theorem length_engineIds (n : Nat) : (engineIds n).length = n := by
  simp [engineIds]

/-- With no subscriber registered the loop of a tick returns normally, keeps
the ids of the simulators and writes one record per simulator under its id. -/
theorem tickLoop_no_clients (fn : MathFns K) :
    ∀ (sims : List (PositionSimulator K)) (ds : Nat → Draws K) (w : World K),
      w.pm.clients = [] →
      ∃ sims1 w1, tickLoop fn sims ds w = .ok (sims1, w1) ∧ w1.pm.clients = [] ∧
        w1.chans = w.chans ∧
        sims1.map (fun s => s.objectID) = sims.map (fun s => s.objectID) ∧
        w1.pm.positions.map Prod.fst =
          (sims.map fun s => s.objectID).foldl addKey (w.pm.positions.map Prod.fst) ∧
        (TableOk w.pm.positions → TableOk w1.pm.positions) := by
  intro sims
  induction sims with
  | nil =>
    intro ds w hcl
    exact ⟨[], w, rfl, hcl, rfl, rfl, rfl, fun h => h⟩
  | cons s rest ih =>
    intro ds w hcl
    have hup := UpdatePosition_no_clients w (Update fn s tickSeconds (ds 0)).2 hcl
    obtain ⟨hid1, hid2⟩ := Update_objectID fn s tickSeconds (ds 0)
    obtain ⟨sims1, w1, hrun, hcl1, hch1, hids, hkeys, htab⟩ :=
      ih (fun i => ds (i + 1))
        ⟨⟨mapSet w.pm.positions (Update fn s tickSeconds (ds 0)).2.ObjectId
          (Update fn s tickSeconds (ds 0)).2, w.pm.clients⟩, w.chans⟩ hcl
    refine ⟨(Update fn s tickSeconds (ds 0)).1 :: sims1, w1, ?_, hcl1, hch1, ?_, ?_, ?_⟩
    · simp only [tickLoop, hup, hrun]
    · simp only [List.map_cons, hids, hid1]
    · rw [hkeys]
      simp only [List.map_cons, List.foldl_cons, keys_mapSet, hid2]
    · intro h
      exact htab (tableOk_mapSet _ _ h)

end EngineLemmas

theorem foldl_addKey_of_subset :
    ∀ (ids ks : List Int), (∀ x ∈ ids, x ∈ ks) → ids.foldl addKey ks = ks := by
  intro ids
  induction ids with
  | nil => intro ks _; rfl
  | cons i rest ih =>
    intro ks hsub
    have hi : i ∈ ks := hsub i (List.mem_cons_self _ _)
    rw [List.foldl_cons]
    simp only [addKey, hi, if_true]
    exact ih ks fun x hx => hsub x (List.mem_cons_of_mem _ hx)

section EngineRuns

variable {K : Type} [LinearOrderedField K] [FloorRing K]

/-- State of every run of ticks that starts from a fresh engine and an empty
hub: the run returns normally, no client is registered, the simulators keep
their ids, every record sits under its own id, and from the first tick on
the keys of the table are exactly the ids of the engine. -/
theorem runTicks_fresh (fn : MathFns K) (ds : Nat → Nat → Draws K) (n : Nat)
    (om : List (Int × Object)) (r : Nat → InitDraws K) (heap : Heap K) :
    ∀ t, ∃ st, runTicks fn ds
        (NewSimulationEngine n om r, { pm := NewPositionManager, chans := heap }) t = .ok st ∧
      st.2.pm.clients = [] ∧
      st.1.simulators.map (fun s => s.objectID) = engineIds n ∧
      TableOk st.2.pm.positions ∧
      (t = 0 → st.2.pm.positions = []) ∧
      (1 ≤ t → st.2.pm.positions.map Prod.fst = engineIds n) := by
  intro t
  induction t with
  | zero =>
    refine ⟨_, rfl, rfl, NewSimulationEngine_ids n om r, ?_, fun _ => rfl, ?_⟩
    · intro e he
      exact absurd he (List.not_mem_nil e)
    · intro h
      exact absurd h (by decide)
  | succ t ih =>
    obtain ⟨st, hrun, hcl, hids, htab, hzero, hpos⟩ := ih
    obtain ⟨sims1, w1, hloop, hcl1, _, hids1, hkeys1, htab1⟩ :=
      tickLoop_no_clients fn st.1.simulators (ds t) st.2 hcl
    refine ⟨({ simulators := sims1 }, w1), ?_, hcl1, ?_, htab1 htab, ?_, ?_⟩
    · simp only [runTicks, hrun, tick, hloop]
    · show sims1.map (fun s => s.objectID) = engineIds n
      rw [hids1, hids]
    · intro h
      exact absurd h (Nat.succ_ne_zero t)
    · intro _
      show w1.pm.positions.map Prod.fst = engineIds n
      rw [hkeys1, hids]
      rcases Nat.eq_zero_or_pos t with ht | ht
      · rw [hzero ht]
        have := foldl_addKey_of_nodup (engineIds n) [] (by simpa using nodup_engineIds n)
        simpa using this
      · rw [hpos ht]
        exact foldl_addKey_of_subset _ _ fun x hx => hx

end EngineRuns

/-! ## Claims on the engine -/

section EngineClaims

variable {K : Type} [LinearOrderedField K] [FloorRing K]

/-- C5 as stated fails for zero ticks: on a fresh engine of 250 objects and
an empty hub, before the first tick `GetPosition 1` is absent. -/
theorem getPosition_absent_before_first_tick :
    ∃ st, runTicks (⟨fun x => x, fun x _ => x⟩ : MathFns ℚ)
        (fun _ _ => ⟨0, 0, 0, 0, 0, 0, 0, 0, 0, 0⟩)
        (NewSimulationEngine numObjects [] fun _ => ⟨0, 0, 0, 0, 0, 0⟩,
          { pm := NewPositionManager, chans := sampleHeap }) 0 = .ok st ∧
      GetPosition st.2.pm 1 = none :=
  ⟨_, rfl, rfl⟩

/-- C5, amended: after any number `t ≥ 1` of ticks from a fresh engine of `n`
objects and an empty hub, the run has returned normally and `GetPosition id`
returns, for every id in `1 .. n`, a record whose object id is `id`. -/
theorem getPosition_after_ticks (fn : MathFns K) (ds : Nat → Nat → Draws K) (n : Nat)
    (om : List (Int × Object)) (r : Nat → InitDraws K) (heap : Heap K) (t : Nat) (id : Int)
    (ht : 1 ≤ t) (hlo : 1 ≤ id) (hhi : id ≤ n) :
    ∃ st, runTicks fn ds
        (NewSimulationEngine n om r, { pm := NewPositionManager, chans := heap }) t = .ok st ∧
      ∃ p, GetPosition st.2.pm id = some p ∧ p.ObjectId = id := by
  obtain ⟨st, hrun, _, _, htab, _, hpos⟩ := runTicks_fresh fn ds n om r heap t
  have hmem : id ∈ st.2.pm.positions.map Prod.fst := by
    rw [hpos ht]
    exact (mem_engineIds n id).mpr ⟨hlo, hhi⟩
  obtain ⟨p, hget, hin⟩ := mapGet_of_mem_keys _ _ hmem
  exact ⟨st, hrun, p, hget, htab _ hin⟩

/-- Instance of `getPosition_after_ticks`: 250 objects, three ticks, id 250. -/
theorem getPosition_after_ticks_witness :
    (1 : Nat) ≤ 3 ∧ (1 : Int) ≤ 250 ∧ (250 : Int) ≤ (numObjects : Nat) ∧
    ∃ st, runTicks (⟨fun x => x, fun x _ => x⟩ : MathFns ℚ)
        (fun _ _ => ⟨0, 0, 0, 0, 0, 0, 0, 0, 0, 0⟩)
        (NewSimulationEngine numObjects [] fun _ => ⟨0, 0, 0, 0, 0, 0⟩,
          { pm := NewPositionManager, chans := sampleHeap }) 3 = .ok st ∧
      ∃ p, GetPosition st.2.pm 250 = some p ∧ p.ObjectId = 250 :=
  ⟨by decide, by decide, by decide,
    getPosition_after_ticks _ _ numObjects [] _ sampleHeap 3 250 (by decide) (by decide)
      (by decide)⟩

/-- C6: snapshot size follows the tick count. For a fresh engine of `n`
objects and an empty hub, `GetAllPositions` is empty before any tick; the
first tick returns normally and afterwards `GetAllPositions` holds exactly
`n` records whose object ids are pairwise different and are exactly the ids
`1 .. n`, whatever the draws. -/
theorem snapshot_size_follows_ticks (fn : MathFns K) (ds : Nat → Nat → Draws K) (n : Nat)
    (om : List (Int × Object)) (r : Nat → InitDraws K) (heap : Heap K) :
    (∃ st, runTicks fn ds
        (NewSimulationEngine n om r, { pm := NewPositionManager, chans := heap }) 0 = .ok st ∧
      GetAllPositions st.2.pm = []) ∧
    ∃ st, runTicks fn ds
        (NewSimulationEngine n om r, { pm := NewPositionManager, chans := heap }) 1 = .ok st ∧
      (GetAllPositions st.2.pm).length = n ∧
      ((GetAllPositions st.2.pm).map fun p => p.ObjectId).Nodup ∧
      ∀ id : Int, id ∈ ((GetAllPositions st.2.pm).map fun p => p.ObjectId) ↔
        1 ≤ id ∧ id ≤ n := by
  refine ⟨⟨_, rfl, rfl⟩, ?_⟩
  obtain ⟨st, hrun, _, _, htab, _, hpos⟩ := runTicks_fresh fn ds n om r heap 1
  have hkeys := hpos (Nat.le_refl 1)
  have hids : ((GetAllPositions st.2.pm).map fun p => p.ObjectId) = engineIds n := by
    rw [← hkeys]
    simp only [GetAllPositions, List.map_map]
    apply List.map_congr_left
    intro e he
    exact htab e he
  refine ⟨st, hrun, ?_, ?_, ?_⟩
  · have h1 : (st.2.pm.positions.map Prod.fst).length = n := by
      rw [hkeys]; exact length_engineIds n
    simpa [GetAllPositions] using h1
  · rw [hids]; exact nodup_engineIds n
  · intro id
    rw [hids]
    exact mem_engineIds n id

end EngineClaims

/-! ## Lemmas on `Update` -/

section FieldLemmas

variable {K : Type} [LinearOrderedField K]

theorem bounce_x (p : PositionSimulator K) :
    (bounce p).x = if p.x < 0 then 0 else if p.x > mapWidth then mapWidth else p.x := by
  have hw : ¬ (0 : K) > mapWidth := by norm_num [mapWidth]
  simp only [bounce]
  split_ifs <;> rfl

theorem bounce_vx (p : PositionSimulator K) :
    (bounce p).vx = if p.x < 0 then -p.vx else if p.x > mapWidth then -p.vx else p.vx := by
  have hw : ¬ (0 : K) > mapWidth := by norm_num [mapWidth]
  simp only [bounce]
  split_ifs <;> rfl

theorem bounce_y (p : PositionSimulator K) :
    (bounce p).y = if p.y < 0 then 0 else if p.y > mapHeight then mapHeight else p.y := by
  have hw : ¬ (0 : K) > mapHeight := by norm_num [mapHeight]
  simp only [bounce]
  split_ifs <;> rfl

theorem bounce_vy (p : PositionSimulator K) :
    (bounce p).vy = if p.y < 0 then -p.vy else if p.y > mapHeight then -p.vy else p.vy := by
  have hw : ¬ (0 : K) > mapHeight := by norm_num [mapHeight]
  simp only [bounce]
  split_ifs <;> rfl

theorem bounce_battery (p : PositionSimulator K) : (bounce p).battery = p.battery := by
  simp only [bounce]
  split_ifs <;> rfl

theorem Pi_pos : (0 : K) < Pi := by
  norm_num [Pi]

end FieldLemmas

theorem invalidStep_battery {K : Type} (s : PositionSimulator K) (d : Draws K) :
    (invalidStep s d).battery = s.battery := by
  simp only [invalidStep]
  split_ifs <;> rfl

section UpdateLemmas

variable {K : Type} [LinearOrderedField K] [FloorRing K]

theorem Update_of_invalid (fn : MathFns K) (s : PositionSimulator K) (dt : K) (d : Draws K)
    (h : s.isValid = false) :
    Update fn s dt d = (invalidStep s d, mkPosition (invalidStep s d) false d) := by
  simp [Update, h]

theorem Update_of_valid (fn : MathFns K) (s : PositionSimulator K) (dt : K) (d : Draws K)
    (h : s.isValid = true) :
    Update fn s dt d =
      (validStep fn s dt d, mkPosition (validStep fn s dt d) (validStep fn s dt d).isValid d) := by
  simp [Update, h]

theorem wrapInt_small (j : Int) (h0 : 0 ≤ j) (h1 : j ≤ 100) : wrapInt j = j := by
  unfold wrapInt
  norm_num
  omega

theorem validStep_motion (fn : MathFns K) (s : PositionSimulator K) (dt : K) (d : Draws K) :
    (validStep fn s dt d).x = (bounce (integrated fn s dt d)).x ∧
    (validStep fn s dt d).y = (bounce (integrated fn s dt d)).y ∧
    (validStep fn s dt d).vx = (bounce (integrated fn s dt d)).vx ∧
    (validStep fn s dt d).vy = (bounce (integrated fn s dt d)).vy := by
  simp only [validStep, maybeInvalidate, drainBattery]
  split_ifs <;> exact ⟨rfl, rfl, rfl, rfl⟩

theorem integrated_battery (fn : MathFns K) (s : PositionSimulator K) (dt : K) (d : Draws K) :
    (integrated fn s dt d).battery = s.battery := by
  simp only [integrated, integrate, perturb, steer, pickTarget]
  split_ifs <;> rfl

theorem validStep_battery (fn : MathFns K) (s : PositionSimulator K) (dt : K) (d : Draws K) :
    (validStep fn s dt d).battery =
      if d.drain < 1 / 1000 ∧ s.battery > 0 then s.battery - 1 else s.battery := by
  have h : (bounce (integrated fn s dt d)).battery = s.battery := by
    rw [bounce_battery, integrated_battery]
  simp only [validStep, maybeInvalidate, drainBattery, h]
  split_ifs <;> first | rfl | exact h

theorem Update_battery (fn : MathFns K) (s : PositionSimulator K) (dt : K) (d : Draws K) :
    ((Update fn s dt d).1.battery = s.battery ∨
      ((Update fn s dt d).1.battery = s.battery - 1 ∧ 0 ≤ (Update fn s dt d).1.battery)) ∧
    (Update fn s dt d).2.Battery = (Update fn s dt d).1.battery := by
  cases hv : s.isValid with
  | false =>
    rw [Update_of_invalid fn s dt d hv]
    exact ⟨Or.inl (invalidStep_battery s d), rfl⟩
  | true =>
    rw [Update_of_valid fn s dt d hv]
    refine ⟨?_, rfl⟩
    show (validStep fn s dt d).battery = _ ∨ _
    rw [validStep_battery]
    split_ifs with h
    · exact Or.inr ⟨rfl, by omega⟩
    · exact Or.inl rfl

/-- The first normalisation loop has left when its fuel is used up. -/
theorem angleDown_le :
    ∀ (fuel : Nat) (a : K), Int.toNat ⌈(a - Pi) / (2 * Pi)⌉ ≤ fuel → angleDown fuel a ≤ Pi := by
  have h2 : (0 : K) < 2 * Pi := by linarith [Pi_pos (K := K)]
  intro fuel
  induction fuel with
  | zero =>
    intro a h
    have hc : ⌈(a - Pi) / (2 * Pi)⌉ ≤ 0 := by omega
    have hq : (a - Pi) / (2 * Pi) ≤ 0 := by
      have := Int.ceil_le.mp hc
      simpa using this
    have : a - Pi ≤ 0 := by
      by_contra hne
      have : 0 < (a - Pi) / (2 * Pi) := div_pos (not_le.mp hne) h2
      linarith
    simp only [angleDown]
    linarith
  | succ n ih =>
    intro a h
    simp only [angleDown]
    split_ifs with hgt
    · apply ih
      have he : (a - 2 * Pi - Pi) / (2 * Pi) = (a - Pi) / (2 * Pi) - 1 := by
        field_simp
        ring
      rw [he, Int.ceil_sub_one]
      omega
    · exact not_lt.mp hgt

/-- The second normalisation loop has left when its fuel is used up, and it
does not undo the first. -/
theorem le_angleUp :
    ∀ (fuel : Nat) (a : K), Int.toNat ⌈(-Pi - a) / (2 * Pi)⌉ ≤ fuel → a ≤ Pi →
      -Pi ≤ angleUp fuel a ∧ angleUp fuel a ≤ Pi := by
  have h2 : (0 : K) < 2 * Pi := by linarith [Pi_pos (K := K)]
  intro fuel
  induction fuel with
  | zero =>
    intro a h hle
    have hc : ⌈(-Pi - a) / (2 * Pi)⌉ ≤ 0 := by omega
    have hq : (-Pi - a) / (2 * Pi) ≤ 0 := by
      have := Int.ceil_le.mp hc
      simpa using this
    have : -Pi - a ≤ 0 := by
      by_contra hne
      have : 0 < (-Pi - a) / (2 * Pi) := div_pos (not_le.mp hne) h2
      linarith
    simp only [angleUp]
    exact ⟨by linarith, hle⟩
  | succ n ih =>
    intro a h hle
    simp only [angleUp]
    split_ifs with hlt
    · apply ih
      · have he : (-Pi - (a + 2 * Pi)) / (2 * Pi) = (-Pi - a) / (2 * Pi) - 1 := by
          field_simp
          ring
        rw [he, Int.ceil_sub_one]
        omega
      · linarith
    · exact ⟨not_lt.mp hlt, hle⟩

/-- Both loops of the angle normalisation terminate within the fuel
`normalizeAngle` gives them: the result satisfies both exit conditions. -/
theorem normalizeAngle_mem (a : K) : -Pi ≤ normalizeAngle a ∧ normalizeAngle a ≤ Pi := by
  unfold normalizeAngle
  exact le_angleUp _ _ (Nat.le_refl _) (angleDown_le _ a (Nat.le_refl _))

end UpdateLemmas

/-! ## Claims on the kinematic model -/

theorem invalidStep_spec {K : Type} (s : PositionSimulator K) (d : Draws K) (j : Int)
    (hc : s.invalidCounter = j) (h0 : 0 ≤ j) (h1 : j ≤ 49) (hv : s.isValid = false) :
    (j + 1 > 20 + ((d.intn30 : Nat) : Int) → (invalidStep s d).isValid = true) ∧
    (¬ j + 1 > 20 + ((d.intn30 : Nat) : Int) →
      (invalidStep s d).isValid = false ∧ (invalidStep s d).invalidCounter = j + 1) := by
  have hw : wrapInt (j + 1) = j + 1 := wrapInt_small (j + 1) (by omega) (by omega)
  simp only [invalidStep, hc, hw]
  constructor
  · intro h
    simp [h]
  · intro h
    simp [h, hv]

section KinematicClaims

variable {K : Type} [LinearOrderedField K] [FloorRing K]

theorem validity_progress (fn : MathFns K) (dt : K) (ds : Nat → Draws K)
    (s : PositionSimulator K) (hinv : s.isValid = false) (hcnt : s.invalidCounter = 0) :
    ∀ j : Nat, j ≤ 50 →
      (∃ k, 21 ≤ k ∧ k ≤ j ∧ (updates fn dt ds s k).isValid = true ∧
        ∀ i, i < k → (updates fn dt ds s i).isValid = false) ∨
      (j ≤ 49 ∧ (∀ i, i ≤ j → (updates fn dt ds s i).isValid = false) ∧
        (updates fn dt ds s j).invalidCounter = (j : Int)) := by
  intro j
  induction j with
  | zero =>
    intro _
    refine Or.inr ⟨by decide, ?_, by simpa [updates] using hcnt⟩
    intro i hi
    have : i = 0 := by omega
    subst this
    exact hinv
  | succ j ih =>
    intro hj
    rcases ih (by omega) with ⟨k, hk1, hk2, hk3, hk4⟩ | ⟨hj49, hall, hcj⟩
    · exact Or.inl ⟨k, hk1, by omega, hk3, hk4⟩
    · have hvj := hall j (Nat.le_refl j)
      have hstep : updates fn dt ds s (j + 1) = invalidStep (updates fn dt ds s j) (ds j) := by
        show (Update fn (updates fn dt ds s j) dt (ds j)).1 = _
        rw [Update_of_invalid fn _ dt (ds j) hvj]
      obtain ⟨hyes, hno⟩ := invalidStep_spec (updates fn dt ds s j) (ds j) (j : Int) hcj
        (by omega) (by omega) hvj
      have hr : ((ds j).intn30 : Nat) < 30 := (ds j).intn30.isLt
      by_cases hgt : (j : Int) + 1 > 20 + (((ds j).intn30 : Nat) : Int)
      · refine Or.inl ⟨j + 1, by omega, Nat.le_refl _, ?_, ?_⟩
        · rw [hstep]; exact hyes hgt
        · intro i hi
          exact hall i (by omega)
      · obtain ⟨hv1, hc1⟩ := hno hgt
        refine Or.inr ⟨by omega, ?_, ?_⟩
        · intro i hi
          rcases Nat.lt_or_ge i (j + 1) with hlt | hge
          · exact hall i (by omega)
          · have : i = j + 1 := by omega
            subst this
            rw [hstep]; exact hv1
        · rw [hstep, hc1]
          push_cast
          rfl

/-- C7: validity-cycle bound. A simulator that has just entered Invalid
(`isValid = false`, `invalidCounter = 0`) is, for every sequence of draws,
Valid again after some number `k` of `Update` calls with `21 ≤ k ≤ 50`, and
Invalid after every smaller number of calls (so after each of the first 20). -/
theorem validity_cycle_bound (fn : MathFns K) (dt : K) (ds : Nat → Draws K)
    (s : PositionSimulator K) (hinv : s.isValid = false) (hcnt : s.invalidCounter = 0) :
    ∃ k, 21 ≤ k ∧ k ≤ 50 ∧ (updates fn dt ds s k).isValid = true ∧
      ∀ i, i < k → (updates fn dt ds s i).isValid = false := by
  rcases validity_progress fn dt ds s hinv hcnt 50 (Nat.le_refl 50) with h | ⟨h, _, _⟩
  · exact h
  · exact absurd h (by decide)

/-- Instance of `validity_cycle_bound` at `sampleInvalidSim`. -/
theorem validity_cycle_bound_witness :
    sampleInvalidSim.isValid = false ∧ sampleInvalidSim.invalidCounter = 0 ∧
    ∃ k, 21 ≤ k ∧ k ≤ 50 ∧
      (updates sampleFns (1 / 10) (fun _ => sampleDraws) sampleInvalidSim k).isValid = true ∧
      ∀ i, i < k →
        (updates sampleFns (1 / 10) (fun _ => sampleDraws) sampleInvalidSim i).isValid = false :=
  ⟨rfl, rfl, validity_cycle_bound sampleFns (1 / 10) (fun _ => sampleDraws) sampleInvalidSim rfl rfl⟩

/-- C8: no motion while Invalid. From a state with `isValid = false`, for
every `dt` and every draw, `Update` leaves `x, y, vx, vy, angle, targetX,
targetY, speed, battery` unchanged and returns a record with `IsValid`
false and `X, Y, A` equal to the location and angle before the call. -/
theorem invalid_update_frozen (fn : MathFns K) (s : PositionSimulator K) (dt : K) (d : Draws K)
    (hinv : s.isValid = false) :
    (Update fn s dt d).1.x = s.x ∧ (Update fn s dt d).1.y = s.y ∧
    (Update fn s dt d).1.vx = s.vx ∧ (Update fn s dt d).1.vy = s.vy ∧
    (Update fn s dt d).1.angle = s.angle ∧
    (Update fn s dt d).1.targetX = s.targetX ∧ (Update fn s dt d).1.targetY = s.targetY ∧
    (Update fn s dt d).1.speed = s.speed ∧ (Update fn s dt d).1.battery = s.battery ∧
    (Update fn s dt d).2.IsValid = false ∧
    (Update fn s dt d).2.X = s.x ∧ (Update fn s dt d).2.Y = s.y ∧
    (Update fn s dt d).2.A = s.angle := by
  rw [Update_of_invalid fn s dt d hinv]
  simp only [invalidStep, mkPosition]
  split_ifs <;> simp

/-- Instance of `invalid_update_frozen` at `sampleInvalidSim`. -/
theorem invalid_update_frozen_witness :
    sampleInvalidSim.isValid = false ∧
    (Update sampleFns sampleInvalidSim (1 / 10) sampleDraws).1.x = sampleInvalidSim.x ∧
    (Update sampleFns sampleInvalidSim (1 / 10) sampleDraws).1.y = sampleInvalidSim.y ∧
    (Update sampleFns sampleInvalidSim (1 / 10) sampleDraws).1.vx = sampleInvalidSim.vx ∧
    (Update sampleFns sampleInvalidSim (1 / 10) sampleDraws).1.vy = sampleInvalidSim.vy ∧
    (Update sampleFns sampleInvalidSim (1 / 10) sampleDraws).1.angle = sampleInvalidSim.angle ∧
    (Update sampleFns sampleInvalidSim (1 / 10) sampleDraws).1.targetX =
      sampleInvalidSim.targetX ∧
    (Update sampleFns sampleInvalidSim (1 / 10) sampleDraws).1.targetY =
      sampleInvalidSim.targetY ∧
    (Update sampleFns sampleInvalidSim (1 / 10) sampleDraws).1.speed = sampleInvalidSim.speed ∧
    (Update sampleFns sampleInvalidSim (1 / 10) sampleDraws).1.battery =
      sampleInvalidSim.battery ∧
    (Update sampleFns sampleInvalidSim (1 / 10) sampleDraws).2.IsValid = false ∧
    (Update sampleFns sampleInvalidSim (1 / 10) sampleDraws).2.X = sampleInvalidSim.x ∧
    (Update sampleFns sampleInvalidSim (1 / 10) sampleDraws).2.Y = sampleInvalidSim.y ∧
    (Update sampleFns sampleInvalidSim (1 / 10) sampleDraws).2.A = sampleInvalidSim.angle :=
  ⟨rfl, invalid_update_frozen sampleFns sampleInvalidSim (1 / 10) sampleDraws rfl⟩

/-- C9: boundary reflection and clamping. From a Valid state, for every
`dt` and every draw: if the integrated position lies beyond a boundary, then
after `Update` that coordinate equals the boundary value and the velocity
component is the negative of the one used in the integration (so its sign is
the opposite one); and the record returned has `0 ≤ X ≤ mapWidth` and
`0 ≤ Y ≤ mapHeight`. -/
theorem boundary_reflection_and_clamp (fn : MathFns K) (s : PositionSimulator K) (dt : K)
    (d : Draws K) (hv : s.isValid = true) :
    ((integrated fn s dt d).x < 0 →
      (Update fn s dt d).1.x = 0 ∧ (Update fn s dt d).1.vx = -(integrated fn s dt d).vx) ∧
    ((integrated fn s dt d).x > mapWidth →
      (Update fn s dt d).1.x = mapWidth ∧
        (Update fn s dt d).1.vx = -(integrated fn s dt d).vx) ∧
    ((integrated fn s dt d).y < 0 →
      (Update fn s dt d).1.y = 0 ∧ (Update fn s dt d).1.vy = -(integrated fn s dt d).vy) ∧
    ((integrated fn s dt d).y > mapHeight →
      (Update fn s dt d).1.y = mapHeight ∧
        (Update fn s dt d).1.vy = -(integrated fn s dt d).vy) ∧
    0 ≤ (Update fn s dt d).2.X ∧ (Update fn s dt d).2.X ≤ mapWidth ∧
    0 ≤ (Update fn s dt d).2.Y ∧ (Update fn s dt d).2.Y ≤ mapHeight := by
  obtain ⟨hx, hy, hvx, hvy⟩ := validStep_motion fn s dt d
  have hW : (0 : K) ≤ mapWidth := by norm_num [mapWidth]
  have hH : (0 : K) ≤ mapHeight := by norm_num [mapHeight]
  rw [Update_of_valid fn s dt d hv]
  simp only [mkPosition, hx, hy, hvx, hvy, bounce_x, bounce_y, bounce_vx, bounce_vy]
  refine ⟨?_, ?_, ?_, ?_, ?_, ?_, ?_, ?_⟩
  · intro h
    simp [h]
  · intro h
    have h0 : ¬ (integrated fn s dt d).x < 0 := not_lt.mpr (le_trans hW (le_of_lt h))
    simp [h, h0]
  · intro h
    simp [h]
  · intro h
    have h0 : ¬ (integrated fn s dt d).y < 0 := not_lt.mpr (le_trans hH (le_of_lt h))
    simp [h, h0]
  · split_ifs with h1 h2
    · exact le_refl _
    · exact hW
    · exact not_lt.mp h1
  · split_ifs with h1 h2
    · exact hW
    · exact le_refl _
    · exact not_lt.mp h2
  · split_ifs with h1 h2
    · exact le_refl _
    · exact hH
    · exact not_lt.mp h1
  · split_ifs with h1 h2
    · exact hH
    · exact le_refl _
    · exact not_lt.mp h2

/-- Instance of `boundary_reflection_and_clamp` at `sampleValidSim`, which
crosses the left wall. -/
theorem boundary_reflection_and_clamp_witness :
    sampleValidSim.isValid = true ∧
    (((integrated sampleFns sampleValidSim (1 / 10) sampleDraws).x < 0 →
      (Update sampleFns sampleValidSim (1 / 10) sampleDraws).1.x = 0 ∧
        (Update sampleFns sampleValidSim (1 / 10) sampleDraws).1.vx =
          -(integrated sampleFns sampleValidSim (1 / 10) sampleDraws).vx) ∧
    ((integrated sampleFns sampleValidSim (1 / 10) sampleDraws).x > mapWidth →
      (Update sampleFns sampleValidSim (1 / 10) sampleDraws).1.x = mapWidth ∧
        (Update sampleFns sampleValidSim (1 / 10) sampleDraws).1.vx =
          -(integrated sampleFns sampleValidSim (1 / 10) sampleDraws).vx) ∧
    ((integrated sampleFns sampleValidSim (1 / 10) sampleDraws).y < 0 →
      (Update sampleFns sampleValidSim (1 / 10) sampleDraws).1.y = 0 ∧
        (Update sampleFns sampleValidSim (1 / 10) sampleDraws).1.vy =
          -(integrated sampleFns sampleValidSim (1 / 10) sampleDraws).vy) ∧
    ((integrated sampleFns sampleValidSim (1 / 10) sampleDraws).y > mapHeight →
      (Update sampleFns sampleValidSim (1 / 10) sampleDraws).1.y = mapHeight ∧
        (Update sampleFns sampleValidSim (1 / 10) sampleDraws).1.vy =
          -(integrated sampleFns sampleValidSim (1 / 10) sampleDraws).vy) ∧
    0 ≤ (Update sampleFns sampleValidSim (1 / 10) sampleDraws).2.X ∧
    (Update sampleFns sampleValidSim (1 / 10) sampleDraws).2.X ≤ mapWidth ∧
    0 ≤ (Update sampleFns sampleValidSim (1 / 10) sampleDraws).2.Y ∧
    (Update sampleFns sampleValidSim (1 / 10) sampleDraws).2.Y ≤ mapHeight) :=
  ⟨rfl, boundary_reflection_and_clamp sampleFns sampleValidSim (1 / 10) sampleDraws rfl⟩

theorem battery_run_bounds (fn : MathFns K) (dt : K) (ds : Nat → Draws K)
    (s : PositionSimulator K) (h0 : 0 ≤ s.battery) (h1 : s.battery ≤ 100) :
    ∀ n, 0 ≤ (updates fn dt ds s n).battery ∧ (updates fn dt ds s n).battery ≤ 100 := by
  intro n
  induction n with
  | zero => exact ⟨h0, h1⟩
  | succ n ih =>
    have hb := (Update_battery fn (updates fn dt ds s n) dt (ds n)).1
    show 0 ≤ (Update fn (updates fn dt ds s n) dt (ds n)).1.battery ∧
      (Update fn (updates fn dt ds s n) dt (ds n)).1.battery ≤ 100
    rcases hb with hb | ⟨hb, hb0⟩
    · rw [hb]; exact ih
    · exact ⟨hb0, by omega⟩

/-- C10: the battery only drains. One `Update` leaves the battery as it was
or lowers it by one, and a lowered battery is not below 0; the record carries
the battery of the new state. Along every run from a state built by
`NewPositionSimulator` the battery of each record is at most that of the
record before it and lies within 0..100. -/
theorem battery_only_drains (fn : MathFns K) (s : PositionSimulator K) (dt : K) (d : Draws K)
    (positionID objectID : Int) (tagID : String) (r : InitDraws K) (ds : Nat → Draws K)
    (n : Nat) :
    ((Update fn s dt d).1.battery = s.battery ∨
      ((Update fn s dt d).1.battery = s.battery - 1 ∧ 0 ≤ (Update fn s dt d).1.battery)) ∧
    (Update fn s dt d).2.Battery = (Update fn s dt d).1.battery ∧
    (emitted fn dt ds (NewPositionSimulator positionID objectID tagID r) (n + 1)).Battery ≤
      (emitted fn dt ds (NewPositionSimulator positionID objectID tagID r) n).Battery ∧
    0 ≤ (emitted fn dt ds (NewPositionSimulator positionID objectID tagID r) n).Battery ∧
    (emitted fn dt ds (NewPositionSimulator positionID objectID tagID r) n).Battery ≤ 100 := by
  have hr : (r.battery : Nat) < 20 := r.battery.isLt
  have hinit0 : 0 ≤ (NewPositionSimulator positionID objectID tagID r).battery := by
    show (0 : Int) ≤ 80 + ((r.battery : Nat) : Int)
    omega
  have hinit1 : (NewPositionSimulator positionID objectID tagID r).battery ≤ 100 := by
    show (80 : Int) + ((r.battery : Nat) : Int) ≤ 100
    omega
  have hrun := battery_run_bounds fn dt ds _ hinit0 hinit1
  have hem : ∀ m, (emitted fn dt ds (NewPositionSimulator positionID objectID tagID r) m).Battery
      = (updates fn dt ds (NewPositionSimulator positionID objectID tagID r) (m + 1)).battery :=
    fun m => (Update_battery fn _ dt (ds m)).2
  refine ⟨(Update_battery fn s dt d).1, (Update_battery fn s dt d).2, ?_, ?_, ?_⟩
  · rw [hem (n + 1), hem n]
    have hb := (Update_battery fn
      (updates fn dt ds (NewPositionSimulator positionID objectID tagID r) (n + 1)) dt
      (ds (n + 1))).1
    show (Update fn (updates fn dt ds (NewPositionSimulator positionID objectID tagID r) (n + 1))
      dt (ds (n + 1))).1.battery ≤ _
    rcases hb with hb | ⟨hb, _⟩
    · rw [hb]
    · rw [hb]; omega
  · rw [hem n]; exact (hrun (n + 1)).1
  · rw [hem n]; exact (hrun (n + 1)).2

end KinematicClaims

/-! ## Claims on the waypoint -/

section WaypointLemmas

variable {K : Type} [LinearOrderedField K]

theorem bounce_targetX (p : PositionSimulator K) :
    (bounce p).targetX = if p.x < 0 ∨ p.x > mapWidth then mapWidth / 2 else p.targetX := by
  have hw : ¬ (0 : K) > mapWidth := by norm_num [mapWidth]
  simp only [bounce]
  split_ifs <;> first | rfl | tauto

theorem bounce_targetY (p : PositionSimulator K) :
    (bounce p).targetY = if p.y < 0 ∨ p.y > mapHeight then mapHeight / 2 else p.targetY := by
  have hw : ¬ (0 : K) > mapHeight := by norm_num [mapHeight]
  simp only [bounce]
  split_ifs <;> first | rfl | tauto

end WaypointLemmas

section WaypointClaims

variable {K : Type} [LinearOrderedField K] [FloorRing K]

theorem integrated_target (fn : MathFns K) (s : PositionSimulator K) (dt : K) (d : Draws K) :
    (integrated fn s dt d).targetX = (pickTarget s d).targetX ∧
    (integrated fn s dt d).targetY = (pickTarget s d).targetY := by
  simp only [integrated, integrate, perturb, steer]
  split_ifs <;> exact ⟨rfl, rfl⟩

theorem validStep_target (fn : MathFns K) (s : PositionSimulator K) (dt : K) (d : Draws K) :
    (validStep fn s dt d).targetX = (bounce (integrated fn s dt d)).targetX ∧
    (validStep fn s dt d).targetY = (bounce (integrated fn s dt d)).targetY := by
  simp only [validStep, maybeInvalidate, drainBattery]
  split_ifs <;> exact ⟨rfl, rfl⟩

/-- C11 as stated fails: `sampleValidSim` crosses the left wall only (its
integrated `x` is negative, its integrated `y` is inside the area), and after
`Update` the waypoint is `(mapWidth / 2, 0)`: `targetY` is still 0, not
`mapHeight / 2`. -/
theorem waypoint_not_center_after_x_bounce :
    sampleValidSim.isValid = true ∧
    (integrated sampleFns sampleValidSim (1 / 10) sampleDraws).x < 0 ∧
    (Update sampleFns sampleValidSim (1 / 10) sampleDraws).1.targetX = mapWidth / 2 ∧
    (Update sampleFns sampleValidSim (1 / 10) sampleDraws).1.targetY = 0 ∧
    (Update sampleFns sampleValidSim (1 / 10) sampleDraws).1.targetY ≠ mapHeight / 2 := by
  have hx : (integrated sampleFns sampleValidSim (1 / 10) sampleDraws).x = -49 / 500 := by
    norm_num [integrated, integrate, perturb, steer, pickTarget, sampleValidSim, sampleDraws]
  have hy : (integrated sampleFns sampleValidSim (1 / 10) sampleDraws).y = 50 := by
    norm_num [integrated, integrate, perturb, steer, pickTarget, sampleValidSim, sampleDraws]
  have hty : (pickTarget sampleValidSim sampleDraws).targetY = 0 := by
    norm_num [pickTarget, sampleValidSim, sampleDraws]
  have hU := Update_of_valid sampleFns sampleValidSim (1 / 10) sampleDraws rfl
  have htX := (validStep_target sampleFns sampleValidSim (1 / 10) sampleDraws).1
  have htY := (validStep_target sampleFns sampleValidSim (1 / 10) sampleDraws).2
  have hY0 : (Update sampleFns sampleValidSim (1 / 10) sampleDraws).1.targetY = 0 := by
    rw [hU]
    show (validStep sampleFns sampleValidSim (1 / 10) sampleDraws).targetY = 0
    rw [htY, bounce_targetY, hy,
      (integrated_target sampleFns sampleValidSim (1 / 10) sampleDraws).2, hty]
    norm_num [mapHeight]
  refine ⟨rfl, ?_, ?_, hY0, ?_⟩
  · rw [hx]; norm_num
  · rw [hU]
    show (validStep sampleFns sampleValidSim (1 / 10) sampleDraws).targetX = mapWidth / 2
    rw [htX, bounce_targetX, hx]
    norm_num
  · rw [hY0]
    norm_num [mapHeight]

/-- C11, amended: the waypoint is reset per axis. After `Update` from a Valid
state, `targetX = mapWidth / 2` if the integrated `x` lies beyond the left or
the right boundary, and otherwise `targetX` is the waypoint coordinate in
force during the call (the one kept or re-drawn by the 1% target pick);
likewise `targetY = mapHeight / 2` if the integrated `y` lies beyond the lower
or the upper boundary, and otherwise `targetY` is the coordinate in force. So
the waypoint is the centre exactly when an `x` boundary and a `y` boundary
are both crossed, or the untouched coordinate already had the centre value. -/
theorem waypoint_reset_per_axis (fn : MathFns K) (s : PositionSimulator K) (dt : K)
    (d : Draws K) (hv : s.isValid = true) :
    ((integrated fn s dt d).x < 0 ∨ (integrated fn s dt d).x > mapWidth →
      (Update fn s dt d).1.targetX = mapWidth / 2) ∧
    (¬ ((integrated fn s dt d).x < 0 ∨ (integrated fn s dt d).x > mapWidth) →
      (Update fn s dt d).1.targetX = (pickTarget s d).targetX) ∧
    ((integrated fn s dt d).y < 0 ∨ (integrated fn s dt d).y > mapHeight →
      (Update fn s dt d).1.targetY = mapHeight / 2) ∧
    (¬ ((integrated fn s dt d).y < 0 ∨ (integrated fn s dt d).y > mapHeight) →
      (Update fn s dt d).1.targetY = (pickTarget s d).targetY) := by
  obtain ⟨htX, htY⟩ := validStep_target fn s dt d
  obtain ⟨hiX, hiY⟩ := integrated_target fn s dt d
  rw [Update_of_valid fn s dt d hv]
  simp only [htX, htY, bounce_targetX, bounce_targetY, hiX, hiY]
  refine ⟨?_, ?_, ?_, ?_⟩
  · intro h
    rw [if_pos h]
  · intro h
    rw [if_neg h]
  · intro h
    rw [if_pos h]
  · intro h
    rw [if_neg h]

/-- Instance of `waypoint_reset_per_axis` at `sampleValidSim`, which crosses
the left wall and no other. -/
theorem waypoint_reset_per_axis_witness :
    sampleValidSim.isValid = true ∧
    (((integrated sampleFns sampleValidSim (1 / 10) sampleDraws).x < 0 ∨
        (integrated sampleFns sampleValidSim (1 / 10) sampleDraws).x > mapWidth →
      (Update sampleFns sampleValidSim (1 / 10) sampleDraws).1.targetX = mapWidth / 2) ∧
    (¬ ((integrated sampleFns sampleValidSim (1 / 10) sampleDraws).x < 0 ∨
        (integrated sampleFns sampleValidSim (1 / 10) sampleDraws).x > mapWidth) →
      (Update sampleFns sampleValidSim (1 / 10) sampleDraws).1.targetX =
        (pickTarget sampleValidSim sampleDraws).targetX) ∧
    ((integrated sampleFns sampleValidSim (1 / 10) sampleDraws).y < 0 ∨
        (integrated sampleFns sampleValidSim (1 / 10) sampleDraws).y > mapHeight →
      (Update sampleFns sampleValidSim (1 / 10) sampleDraws).1.targetY = mapHeight / 2) ∧
    (¬ ((integrated sampleFns sampleValidSim (1 / 10) sampleDraws).y < 0 ∨
        (integrated sampleFns sampleValidSim (1 / 10) sampleDraws).y > mapHeight) →
      (Update sampleFns sampleValidSim (1 / 10) sampleDraws).1.targetY =
        (pickTarget sampleValidSim sampleDraws).targetY)) :=
  ⟨rfl, waypoint_reset_per_axis sampleFns sampleValidSim (1 / 10) sampleDraws rfl⟩

end WaypointClaims

end Server
